import Mathlib

/-!
Verification of the change-detection and delivery pipeline of
`hubspot_digest.py` (HubSpot → Slack daily CRM digest agent).

Modelling conventions:
* Python dictionaries are insertion-ordered association lists with one
  entry per key (`dset` models `d[k] = v`, `dget` models `d.get(k)`).
* Python values stored in deal-record fields are modelled by `PyVal`
  (`None`, strings, integers), with Python truthiness and `str()`
  conversion made explicit.  A record field that is absent and a field
  holding `None` behave identically under `d.get(k)`, so both are
  modelled by `PyVal.none`.
* A deal record is its top-level fields plus the fields of its
  `properties` sub-object (`{}` when absent, matching
  `deal.get("properties", {})`); the `properties` value, when present,
  is assumed to be an object.
* External collaborators (the Slack display-name lookup and the
  standard-library datetime parse/format used for pretty dates) are
  passed as function parameters.
-/

namespace HubspotDigest

/-- Python values occurring in fetched deal-record fields: `None`,
a string, or an integer. -/
inductive PyVal where
  | none
  | str (s : String)
  | int (n : Int)
deriving DecidableEq

/-- Python truthiness: `None` is falsy, a string is truthy iff nonempty,
an integer is truthy iff nonzero. -/
def PyVal.truthy : PyVal → Bool
  | .none => false
  | .str s => s != ""
  | .int n => n != 0

/-- Python `str()` conversion of a field value. -/
def PyVal.pyStr : PyVal → String
  | .none => "None"
  | .str s => s
  | .int n => n.repr

/-- Python `a or b`: `a` when truthy, otherwise `b`. -/
def PyVal.pyOr (a b : PyVal) : PyVal := if a.truthy then a else b

/-- Python `obj.get(k)` on a record object: the stored value, or `None`
when the key is absent. -/
def oget (o : List (String × PyVal)) (k : String) : PyVal :=
  match o.find? (fun p => p.1 == k) with
  | some p => p.2
  | Option.none => .none

/-- Python `obj.get(k, dflt)` on a record object: the stored value, or
`dflt` when the key is absent. -/
def ogetD (o : List (String × PyVal)) (k : String) (dflt : PyVal) : PyVal :=
  match o.find? (fun p => p.1 == k) with
  | some p => p.2
  | Option.none => dflt

/-- A fetched deal record: its top-level fields (other than `properties`)
and the fields of its `properties` sub-object. -/
structure Deal where
  top : List (String × PyVal)
  props : List (String × PyVal)
deriving DecidableEq

/-- Python `snap.get(k)` on a snapshot dictionary, as an `Option`. -/
def dget (snap : List (String × PyVal)) (k : String) : Option PyVal :=
  match snap.find? (fun p => p.1 == k) with
  | some p => some p.2
  | Option.none => Option.none

/-- Python `snap[k] = v` on a snapshot dictionary: update the entry in
place when the key is present, otherwise append a new entry. -/
def dset (snap : List (String × PyVal)) (k : String) (v : PyVal) :
    List (String × PyVal) :=
  match snap with
  | [] => [(k, v)]
  | (k', v') :: rest => if k' = k then (k, v) :: rest else (k', v') :: dset rest k v

/-- The deal identifier derived in the change-detection loop of
`run_digest` (line 314): `str(deal.get("id") or deal.get("dealId"))`. -/
def derivedId (d : Deal) : String :=
  ((oget d.top "id").pyOr (oget d.top "dealId")).pyStr

/-- The last-modified marker derived in the change-detection loop of
`run_digest` (line 316):
`props.get("hs_lastmodifieddate") or deal.get("hs_lastmodifieddate") or ""`. -/
def derivedMarker (d : Deal) : PyVal :=
  ((oget d.props "hs_lastmodifieddate").pyOr
    (oget d.top "hs_lastmodifieddate")).pyOr (.str "")

/-- One iteration of the change-detection loop of `run_digest`
(lines 313–320): derive the identifier and marker, store them in the
current snapshot, and append the deal to `changed_deals` when the
previous snapshot has no entry for the identifier or its entry differs
from the marker. -/
def detectStep (prev : List (String × PyVal))
    (acc : List Deal × List (String × PyVal)) (deal : Deal) :
    List Deal × List (String × PyVal) :=
  let dealId := derivedId deal
  let lastModified := derivedMarker deal
  let snap := dset acc.2 dealId lastModified
  let prevLast := dget prev dealId
  if prevLast = Option.none ∨ prevLast ≠ some lastModified then
    (acc.1 ++ [deal], snap)
  else
    (acc.1, snap)

/-- The snapshot-delta computation of `run_digest` (lines 311–321):
from the fetched deals and the previous snapshot, produce
`(changed_deals, current_snapshot)`. -/
def detect (deals : List Deal) (prev : List (String × PyVal)) :
    List Deal × List (String × PyVal) :=
  deals.foldl (detectStep prev) ([], [])

/-- The Boolean change test applied to one deal by the change-detection
loop: the previous snapshot has no entry for the derived identifier, or
its entry differs from the derived marker. -/
def changedTest (prev : List (String × PyVal)) (d : Deal) : Bool :=
  decide (dget prev (derivedId d) ≠ some (derivedMarker d))

/-- Folding the snapshot updates of the change-detection loop alone. -/
def snapFold (snap : List (String × PyVal)) (deals : List Deal) :
    List (String × PyVal) :=
  deals.foldl (fun s d => dset s (derivedId d) (derivedMarker d)) snap

theorem foldl_detectStep_fst (prev : List (String × PyVal)) :
    ∀ (deals : List Deal) (acc : List Deal × List (String × PyVal)),
      (deals.foldl (detectStep prev) acc).1
        = acc.1 ++ deals.filter (changedTest prev) := by
  intro deals
  induction deals with
  | nil => intro acc; simp
  | cons d rest ih =>
    intro acc
    rw [List.foldl_cons, ih]
    by_cases h : dget prev (derivedId d) = some (derivedMarker d)
    · have hcond : ¬ (dget prev (derivedId d) = Option.none
          ∨ dget prev (derivedId d) ≠ some (derivedMarker d)) := by
        simp [h]
      simp only [detectStep, if_neg hcond]
      have : changedTest prev d = false := by simp [changedTest, h]
      simp [List.filter_cons, this]
    · have hcond : dget prev (derivedId d) = Option.none
          ∨ dget prev (derivedId d) ≠ some (derivedMarker d) := Or.inr h
      simp only [detectStep, if_pos hcond]
      have : changedTest prev d = true := by simp [changedTest, h]
      simp [List.filter_cons, this]

theorem foldl_detectStep_snd (prev : List (String × PyVal)) :
    ∀ (deals : List Deal) (acc : List Deal × List (String × PyVal)),
      (deals.foldl (detectStep prev) acc).2 = snapFold acc.2 deals := by
  intro deals
  induction deals with
  | nil => intro acc; simp [snapFold]
  | cons d rest ih =>
    intro acc
    rw [List.foldl_cons, ih]
    by_cases h : dget prev (derivedId d) = Option.none
        ∨ dget prev (derivedId d) ≠ some (derivedMarker d) <;>
      simp [detectStep, h, snapFold]

theorem detect_fst_eq_filter (deals : List Deal) (prev : List (String × PyVal)) :
    (detect deals prev).1 = deals.filter (changedTest prev) := by
  rw [detect, foldl_detectStep_fst]; rfl

theorem detect_snd_eq_snapFold (deals : List Deal) (prev : List (String × PyVal)) :
    (detect deals prev).2 = snapFold [] deals := by
  rw [detect, foldl_detectStep_snd]

theorem dget_dset_self (s : List (String × PyVal)) (k : String) (v : PyVal) :
    dget (dset s k v) k = some v := by
  induction s with
  | nil => simp [dset, dget]
  | cons p rest ih =>
    by_cases h : p.1 = k
    · simp [dset, h, dget]
    · simpa [dset, h, dget, List.find?] using ih

theorem dget_nil (k : String) : dget [] k = Option.none := rfl

theorem dget_cons (k0 : String) (v0 : PyVal) (s : List (String × PyVal))
    (k : String) :
    dget ((k0, v0) :: s) k = if k0 = k then some v0 else dget s k := by
  by_cases h : k0 = k <;> simp [dget, List.find?_cons, h]

theorem dget_dset_ne (s : List (String × PyVal)) (k k' : String) (v : PyVal)
    (h : k' ≠ k) : dget (dset s k v) k' = dget s k' := by
  induction s with
  | nil => simp [dset, dget_cons, dget_nil, Ne.symm h]
  | cons p rest ih =>
    obtain ⟨k0, v0⟩ := p
    by_cases hp : k0 = k
    · subst hp
      simp [dset, dget_cons, Ne.symm h]
    · by_cases hk' : k0 = k'
      · simp [dset, hp, dget_cons, hk', h]
      · simp [dset, hp, dget_cons, hk', ih]

theorem mem_keys_dset (s : List (String × PyVal)) (k k' : String) (v : PyVal) :
    k' ∈ (dset s k v).map Prod.fst ↔ k' ∈ s.map Prod.fst ∨ k' = k := by
  induction s with
  | nil => simp [dset]
  | cons p rest ih =>
    by_cases h : p.1 = k
    · subst h
      simp [dset]
      tauto
    · simp [dset, h, ih]
      tauto

theorem nodup_keys_dset (s : List (String × PyVal)) (k : String) (v : PyVal)
    (h : (s.map Prod.fst).Nodup) : ((dset s k v).map Prod.fst).Nodup := by
  induction s with
  | nil => simp [dset]
  | cons p rest ih =>
    obtain ⟨k0, v0⟩ := p
    simp only [List.map_cons, List.nodup_cons] at h
    by_cases hp : k0 = k
    · subst hp
      simpa [dset] using h
    · rw [show dset ((k0, v0) :: rest) k v = (k0, v0) :: dset rest k v by
        simp [dset, hp]]
      refine List.nodup_cons.mpr ⟨?_, ih h.2⟩
      intro hmem
      rcases (mem_keys_dset rest k k0 v).mp (by simpa using hmem) with h1 | h2
      · exact h.1 h1
      · exact hp h2

theorem mem_keys_snapFold :
    ∀ (deals : List Deal) (s : List (String × PyVal)) (k : String),
      k ∈ (snapFold s deals).map Prod.fst
        ↔ k ∈ s.map Prod.fst ∨ k ∈ deals.map derivedId := by
  intro deals
  induction deals with
  | nil => intro s k; simp [snapFold]
  | cons d rest ih =>
    intro s k
    show k ∈ (snapFold (dset s (derivedId d) (derivedMarker d)) rest).map Prod.fst ↔ _
    rw [ih, mem_keys_dset]
    simp
    tauto

theorem nodup_keys_snapFold :
    ∀ (deals : List Deal) (s : List (String × PyVal)),
      (s.map Prod.fst).Nodup → ((snapFold s deals).map Prod.fst).Nodup := by
  intro deals
  induction deals with
  | nil => intro s h; simpa [snapFold] using h
  | cons d rest ih =>
    intro s h
    exact ih _ (nodup_keys_dset s (derivedId d) (derivedMarker d) h)

theorem dget_snapFold_of_not_mem :
    ∀ (deals : List Deal) (s : List (String × PyVal)) (k : String),
      k ∉ deals.map derivedId → dget (snapFold s deals) k = dget s k := by
  intro deals
  induction deals with
  | nil => intro s k _; rfl
  | cons d rest ih =>
    intro s k hk
    simp only [List.map_cons, List.mem_cons, not_or] at hk
    show dget (snapFold (dset s (derivedId d) (derivedMarker d)) rest) k = _
    rw [ih _ _ hk.2, dget_dset_ne _ _ _ _ hk.1]

theorem dget_snapFold_mem :
    ∀ (deals : List Deal) (s : List (String × PyVal)) (d : Deal),
      d ∈ deals →
      (∀ d1 ∈ deals, ∀ d2 ∈ deals,
        derivedId d1 = derivedId d2 → derivedMarker d1 = derivedMarker d2) →
      dget (snapFold s deals) (derivedId d) = some (derivedMarker d) := by
  intro deals
  induction deals with
  | nil => intro s d hd _; cases hd
  | cons d0 rest ih =>
    intro s d hd hcons
    have hconsRest : ∀ d1 ∈ rest, ∀ d2 ∈ rest,
        derivedId d1 = derivedId d2 → derivedMarker d1 = derivedMarker d2 :=
      fun d1 h1 d2 h2 => hcons d1 (List.mem_cons_of_mem _ h1) d2 (List.mem_cons_of_mem _ h2)
    rcases List.mem_cons.mp hd with rfl | hdRest
    · show dget (snapFold (dset s (derivedId d) (derivedMarker d)) rest) (derivedId d) = _
      by_cases hk : derivedId d ∈ rest.map derivedId
      · rcases List.mem_map.mp hk with ⟨d2, hd2, hid⟩
        have hmk : derivedMarker d2 = derivedMarker d :=
          hcons d2 (List.mem_cons_of_mem _ hd2) d (List.mem_cons_self _ _) hid
        have := ih (dset s (derivedId d) (derivedMarker d)) d2 hd2 hconsRest
        rw [hid, hmk] at this
        exact this
      · rw [dget_snapFold_of_not_mem rest _ _ hk, dget_dset_self]
    · exact ih _ d hdRest hconsRest

/-- Claim C1: a fetched record enters `changed_deals` if and only if its
derived identifier is absent from the previous snapshot or the snapshot's
entry for it differs from its derived last-modified marker (exact
equality of the stored values), and `changed_deals` is exactly the
subsequence of the fetched deals passing this test, so its order matches
the fetch order. -/
theorem changed_records_iff_and_order (deals : List Deal)
    (prev : List (String × PyVal)) :
    (detect deals prev).1 = deals.filter (changedTest prev)
    ∧ ∀ d, d ∈ (detect deals prev).1 ↔
        d ∈ deals ∧ (dget prev (derivedId d) = Option.none
          ∨ ∃ m, dget prev (derivedId d) = some m ∧ m ≠ derivedMarker d) := by
  refine ⟨detect_fst_eq_filter deals prev, ?_⟩
  intro d
  rw [detect_fst_eq_filter, List.mem_filter]
  constructor
  · rintro ⟨hmem, htest⟩
    refine ⟨hmem, ?_⟩
    have hne : dget prev (derivedId d) ≠ some (derivedMarker d) := by
      simpa [changedTest] using htest
    cases h : dget prev (derivedId d) with
    | none => exact Or.inl rfl
    | some m =>
      refine Or.inr ⟨m, rfl, ?_⟩
      intro hm
      exact hne (by rw [h, hm])
  · rintro ⟨hmem, hcase⟩
    refine ⟨hmem, ?_⟩
    rcases hcase with h | ⟨m, hm, hne⟩
    · simp [changedTest, h]
    · simp [changedTest, hm, hne]

/-- Claim C2: the new snapshot built by the change-detection loop has
exactly one entry per distinct derived identifier occurring among the
fetched deals, no entry for any identifier not occurring there, and does
not depend on the previous snapshot at all (full replacement, not a
merge). -/
theorem new_snapshot_full_replacement (deals : List Deal)
    (prev : List (String × PyVal)) :
    ((detect deals prev).2.map Prod.fst).Nodup
    ∧ (∀ k, k ∈ (detect deals prev).2.map Prod.fst ↔ k ∈ deals.map derivedId)
    ∧ (detect deals prev).2 = (detect deals []).2 := by
  rw [detect_snd_eq_snapFold]
  refine ⟨nodup_keys_snapFold deals [] (by simp), fun k => ?_, ?_⟩
  · rw [mem_keys_snapFold]
    simp
  · rw [detect_snd_eq_snapFold]

/-- A deal with derived identifier `"1"` and derived marker `"a"`. -/
def cexDealA : Deal :=
  ⟨[("id", PyVal.str "1")], [("hs_lastmodifieddate", PyVal.str "a")]⟩

/-- A deal with derived identifier `"1"` and derived marker `"b"`. -/
def cexDealB : Deal :=
  ⟨[("id", PyVal.str "1")], [("hs_lastmodifieddate", PyVal.str "b")]⟩

/-- Claim C3 counterexample: with two fetched deals sharing the derived
identifier `"1"` but carrying different markers, re-running the
change-detection loop on its own output snapshot still reports a changed
deal — the snapshot retains only the last marker seen per identifier, so
the first deal keeps comparing unequal.  Idempotence fails as stated. -/
theorem detect_not_idempotent_cex :
    (detect [cexDealA, cexDealB]
      (detect [cexDealA, cexDealB] []).2).1 ≠ [] := by decide

/-- Claim C3 amended: re-running the change-detection loop with the same
deal list against the first run's new snapshot yields no changed deals,
provided any two deals sharing a derived identifier carry the same
derived marker (in particular whenever the derived identifiers are
pairwise distinct). -/
theorem detect_idempotent (deals : List Deal) (prev : List (String × PyVal))
    (hcons : ∀ d1 ∈ deals, ∀ d2 ∈ deals,
      derivedId d1 = derivedId d2 → derivedMarker d1 = derivedMarker d2) :
    (detect deals (detect deals prev).2).1 = [] := by
  rw [detect_fst_eq_filter, List.filter_eq_nil_iff]
  intro d hd
  rw [detect_snd_eq_snapFold]
  simp only [changedTest, ne_eq, decide_not, Bool.not_eq_eq_eq_not, Bool.not_true,
    decide_eq_false_iff_not, Decidable.not_not]
  exact dget_snapFold_mem deals [] d hd hcons

/-- Witness for `detect_idempotent` at a concrete input. -/
theorem detect_idempotent_witness :
    (detect [cexDealA] (detect [cexDealA] []).2).1 = [] :=
  detect_idempotent [cexDealA] [] (by decide)

/-- The owner value resolved by the fallback chain of
`group_deals_by_owner` (line 163):
`props.get("hubspot_owner_id") or deal.get("hubspot_owner_id") or deal.get("owner_id")`. -/
def ownerIdVal (d : Deal) : PyVal :=
  ((oget d.props "hubspot_owner_id").pyOr
    (oget d.top "hubspot_owner_id")).pyOr (oget d.top "owner_id")

/-- The grouping key used by `group_deals_by_owner` (line 164):
`str(owner_id or "unknown")`. -/
def ownerKey (d : Deal) : String :=
  ((ownerIdVal d).pyOr (.str "unknown")).pyStr

/-- Appending a deal to the list stored under key `k` of an
insertion-ordered `defaultdict(list)`: a present key keeps its position
and its list grows at the end, an absent key is appended at the end with
a singleton list. -/
def groupAdd (g : List (String × List Deal)) (k : String) (d : Deal) :
    List (String × List Deal) :=
  match g with
  | [] => [(k, [d])]
  | (k', ds) :: rest =>
      if k' = k then (k', ds ++ [d]) :: rest else (k', ds) :: groupAdd rest k d

/-- `group_deals_by_owner` (lines 158–165): group deals by the owner key,
preserving encounter order of both owners and deals. -/
def group_deals_by_owner (deals : List Deal) : List (String × List Deal) :=
  deals.foldl (fun g d => groupAdd g (ownerKey d) d) []

theorem groupAdd_flat (g : List (String × List Deal)) (k : String) (d : Deal) :
    ((groupAdd g k d).map Prod.snd).flatten.Perm
      ((g.map Prod.snd).flatten ++ [d]) := by
  induction g with
  | nil => simp [groupAdd]
  | cons p rest ih =>
    obtain ⟨k', ds⟩ := p
    by_cases h : k' = k
    · simp only [groupAdd, if_pos h, List.map_cons, List.flatten_cons]
      simpa [List.append_assoc] using
        List.Perm.append_left ds
          (@List.perm_append_comm _ [d] ((rest.map Prod.snd).flatten))
    · simp only [groupAdd, if_neg h, List.map_cons, List.flatten_cons]
      simpa [List.append_assoc] using List.Perm.append_left ds ih

theorem group_foldl_flat :
    ∀ (deals : List Deal) (g : List (String × List Deal)),
      (((deals.foldl (fun g d => groupAdd g (ownerKey d) d) g).map Prod.snd).flatten).Perm
        ((g.map Prod.snd).flatten ++ deals) := by
  intro deals
  induction deals with
  | nil => intro g; simp
  | cons d rest ih =>
    intro g
    rw [List.foldl_cons]
    refine (ih _).trans ?_
    have h2 := (groupAdd_flat g (ownerKey d) d).append_right rest
    simpa [List.append_assoc] using h2

theorem groupAdd_keys_sound (g : List (String × List Deal)) (k : String) (d : Deal)
    (hg : ∀ p ∈ g, ∀ d' ∈ p.2, ownerKey d' = p.1) (hk : ownerKey d = k) :
    ∀ p ∈ groupAdd g k d, ∀ d' ∈ p.2, ownerKey d' = p.1 := by
  induction g with
  | nil =>
    intro p hp d' hd'
    simp only [groupAdd, List.mem_singleton] at hp
    subst hp
    simp only [List.mem_singleton] at hd'
    subst hd'
    exact hk
  | cons q rest ih =>
    obtain ⟨k', ds⟩ := q
    intro p hp d' hd'
    by_cases h : k' = k
    · rw [groupAdd, if_pos h] at hp
      rcases List.mem_cons.mp hp with rfl | hrest
      · rcases List.mem_append.mp hd' with h1 | h2
        · exact hg (k', ds) (List.mem_cons_self _ _) d' h1
        · rw [List.mem_singleton] at h2
          subst h2
          rw [hk, h]
      · exact hg p (List.mem_cons_of_mem _ hrest) d' hd'
    · rw [groupAdd, if_neg h] at hp
      rcases List.mem_cons.mp hp with rfl | hrest
      · exact hg (k', ds) (List.mem_cons_self _ _) d' hd'
      · exact ih (fun q hq => hg q (List.mem_cons_of_mem _ hq)) p hrest d' hd'

theorem group_keys_sound :
    ∀ (deals : List Deal) (g : List (String × List Deal)),
      (∀ p ∈ g, ∀ d' ∈ p.2, ownerKey d' = p.1) →
      ∀ p ∈ deals.foldl (fun g d => groupAdd g (ownerKey d) d) g,
        ∀ d' ∈ p.2, ownerKey d' = p.1 := by
  intro deals
  induction deals with
  | nil => intro g hg; exact hg
  | cons d rest ih =>
    intro g hg
    rw [List.foldl_cons]
    exact ih _ (groupAdd_keys_sound g (ownerKey d) d hg rfl)

theorem groupAdd_mem_new (g : List (String × List Deal)) (k : String) (d : Deal) :
    ∃ ds, (k, ds) ∈ groupAdd g k d ∧ d ∈ ds := by
  induction g with
  | nil => exact ⟨[d], by simp [groupAdd]⟩
  | cons q rest ih =>
    obtain ⟨k', ds'⟩ := q
    by_cases h : k' = k
    · subst h
      exact ⟨ds' ++ [d], by simp [groupAdd]⟩
    · obtain ⟨ds, hmem, hd⟩ := ih
      exact ⟨ds, by simp [groupAdd, h, hmem], hd⟩

theorem groupAdd_mem_preserved (g : List (String × List Deal)) (k : String)
    (d : Deal) (k0 : String) (ds0 : List Deal) (d0 : Deal)
    (hmem : (k0, ds0) ∈ g) (hd0 : d0 ∈ ds0) :
    ∃ ds', (k0, ds') ∈ groupAdd g k d ∧ d0 ∈ ds' := by
  induction g with
  | nil => cases hmem
  | cons q rest ih =>
    obtain ⟨k', ds'⟩ := q
    by_cases h : k' = k
    · rcases List.mem_cons.mp hmem with heq | hrest
      · obtain ⟨rfl, rfl⟩ := Prod.mk.injEq .. ▸ (Prod.mk.inj heq)
        exact ⟨ds0 ++ [d], by simp [groupAdd, h], List.mem_append_left _ hd0⟩
      · exact ⟨ds0, by simp [groupAdd, h, hrest], hd0⟩
    · rcases List.mem_cons.mp hmem with heq | hrest
      · obtain ⟨rfl, rfl⟩ := Prod.mk.injEq .. ▸ (Prod.mk.inj heq)
        exact ⟨ds0, by simp [groupAdd, h], hd0⟩
      · obtain ⟨ds1, hmem1, hd1⟩ := ih hrest
        exact ⟨ds1, by simp [groupAdd, h, hmem1], hd1⟩

theorem group_mem_complete :
    ∀ (deals : List Deal) (g : List (String × List Deal)) (d : Deal),
      (d ∈ deals ∨ ∃ ds0, (ownerKey d, ds0) ∈ g ∧ d ∈ ds0) →
      ∃ ds, (ownerKey d, ds) ∈ deals.foldl (fun g d => groupAdd g (ownerKey d) d) g
        ∧ d ∈ ds := by
  intro deals
  induction deals with
  | nil =>
    intro g d hd
    rcases hd with h | h
    · cases h
    · exact h
  | cons d1 rest ih =>
    intro g d hd
    rw [List.foldl_cons]
    rcases hd with h | ⟨ds0, hmem, hd0⟩
    · rcases List.mem_cons.mp h with rfl | hrest
      · obtain ⟨ds, hmem, hd'⟩ := groupAdd_mem_new g (ownerKey d) d
        exact ih _ d (Or.inr ⟨ds, hmem, hd'⟩)
      · exact ih _ d (Or.inl hrest)
    · obtain ⟨ds', hmem', hd'⟩ :=
        groupAdd_mem_preserved g (ownerKey d1) d1 (ownerKey d) ds0 d hmem hd0
      exact ih _ d (Or.inr ⟨ds', hmem', hd'⟩)

/-- Claim C4: `group_deals_by_owner` partitions the deal list exactly —
the concatenation of the group lists is a permutation of the input, every
deal stored under a key has that key as its resolved owner key (the
fallback chain `properties` field → top-level alias → top-level owner-id
alias, with `"unknown"` for an unresolvable owner), and every input deal
is found under its resolved owner key; in particular a deal whose whole
fallback chain is falsy lands in the `"unknown"` bucket. -/
theorem group_by_owner_partitions (deals : List Deal) :
    (((group_deals_by_owner deals).map Prod.snd).flatten).Perm deals
    ∧ (∀ p ∈ group_deals_by_owner deals, ∀ d ∈ p.2, ownerKey d = p.1)
    ∧ (∀ d ∈ deals, ∃ ds, (ownerKey d, ds) ∈ group_deals_by_owner deals ∧ d ∈ ds)
    ∧ (∀ d ∈ deals, (ownerIdVal d).truthy = false →
        ∃ ds, ("unknown", ds) ∈ group_deals_by_owner deals ∧ d ∈ ds) := by
  refine ⟨?_, ?_, ?_, ?_⟩
  · simpa using group_foldl_flat deals []
  · exact group_keys_sound deals [] (by simp)
  · intro d hd
    exact group_mem_complete deals [] d (Or.inl hd)
  · intro d hd hfalsy
    have hkey : ownerKey d = "unknown" := by
      rw [ownerKey, PyVal.pyOr, hfalsy]
      rfl
    rw [← hkey]
    exact group_mem_complete deals [] d (Or.inl hd)

/-- Witness for `group_by_owner_partitions` at a concrete input:
a single deal with an entirely falsy owner chain (empty-string property,
absent top-level alias, integer-zero owner id) lands in the `"unknown"`
bucket. -/
theorem group_by_owner_partitions_witness :
    ∃ ds, ("unknown", ds) ∈
        group_deals_by_owner [⟨[("owner_id", PyVal.int 0)],
          [("hubspot_owner_id", PyVal.str "")]⟩]
      ∧ (⟨[("owner_id", PyVal.int 0)], [("hubspot_owner_id", PyVal.str "")]⟩ : Deal) ∈ ds :=
  (group_by_owner_partitions _).2.2.2 _ (by decide) (by decide)

theorem truthy_pyOr (a b : PyVal) :
    (a.pyOr b).truthy = (a.truthy || b.truthy) := by
  cases h : a.truthy <;> simp [PyVal.pyOr, h]

/-- Claim C10: a record whose owner value is falsy at every step of the
fallback chain — absent (`None`), an explicitly stored `None`, an empty
string, an integer zero — is filed by `group_deals_by_owner` under the
`"unknown"` bucket, never under a bucket keyed by the falsy value
itself. -/
theorem falsy_owner_goes_to_unknown (deals : List Deal) (d : Deal)
    (hd : d ∈ deals)
    (h1 : (oget d.props "hubspot_owner_id").truthy = false)
    (h2 : (oget d.top "hubspot_owner_id").truthy = false)
    (h3 : (oget d.top "owner_id").truthy = false) :
    ownerKey d = "unknown"
    ∧ ∃ ds, ("unknown", ds) ∈ group_deals_by_owner deals ∧ d ∈ ds := by
  have hfalsy : (ownerIdVal d).truthy = false := by
    rw [ownerIdVal, truthy_pyOr, truthy_pyOr, h1, h2, h3]
    rfl
  have hkey : ownerKey d = "unknown" := by
    rw [ownerKey, PyVal.pyOr, hfalsy]
    rfl
  refine ⟨hkey, ?_⟩
  rw [← hkey]
  exact group_mem_complete deals [] d (Or.inl hd)

/-- Witness for `falsy_owner_goes_to_unknown` at a concrete input: a deal
whose only owner information is a top-level `hubspot_owner_id` holding the
integer zero. -/
theorem falsy_owner_goes_to_unknown_witness :
    ownerKey ⟨[("hubspot_owner_id", PyVal.int 0)], []⟩ = "unknown"
    ∧ ∃ ds, ("unknown", ds) ∈
        group_deals_by_owner [⟨[("hubspot_owner_id", PyVal.int 0)], []⟩]
      ∧ (⟨[("hubspot_owner_id", PyVal.int 0)], []⟩ : Deal) ∈ ds :=
  falsy_owner_goes_to_unknown _ _ (by decide) (by decide) (by decide) (by decide)

theorem toDigitsCore_succ_ne_nil (b : Nat) :
    ∀ (fuel n : Nat) (ds : List Char), Nat.toDigitsCore b (fuel + 1) n ds ≠ [] := by
  intro fuel
  induction fuel with
  | zero =>
    intro n ds
    unfold Nat.toDigitsCore
    by_cases h : n / b = 0 <;> simp [h, Nat.toDigitsCore]
  | succ m ih =>
    intro n ds
    unfold Nat.toDigitsCore
    by_cases h : n / b = 0
    · simp [h]
    · simpa [h] using ih (n / b) (Nat.digitChar (n % b) :: ds)

theorem natRepr_ne_empty (n : Nat) : Nat.repr n ≠ "" := by
  intro h
  have hdata : (Nat.toDigits 10 n) = [] := congrArg String.data h
  exact toDigitsCore_succ_ne_nil 10 n n [] hdata

theorem intRepr_ne_empty (n : Int) : Int.repr n ≠ "" := by
  cases n with
  | ofNat m => exact natRepr_ne_empty m
  | negSucc m =>
    intro h
    have hdata : ('-' :: (Nat.repr (m + 1)).data) = [] := congrArg String.data h
    cases hdata

theorem truthy_pyStr_ne_empty (v : PyVal) (h : v.truthy = true) :
    v.pyStr ≠ "" := by
  cases v with
  | none => cases h
  | str s => simpa [PyVal.truthy] using h
  | int n => exact intRepr_ne_empty n

/-- A deal carrying an explicit empty-string `dealId` and no `id`. -/
def c9Deal : Deal := ⟨[("dealId", PyVal.str "")], []⟩

/-- Claim C9 counterexample: for a record whose `id` field is absent and
whose `dealId` field holds the empty string, the identifier derived by
the change-detection loop is `str("") = ""` — an empty string, so the
claimed invariant fails. -/
theorem derived_id_empty_cex : ¬ derivedId c9Deal ≠ "" := by decide

/-- Claim C9 amended: the derived identifier is the empty string exactly
when the primary `id` field is falsy and the fallback `dealId` field
holds the empty string; in every other case it is non-empty — in
particular, when both fields are absent (or `None`) it is the string
`"None"`, which is non-empty. -/
theorem derived_id_nonempty_amended (d : Deal) :
    (derivedId d = "" ↔
      (oget d.top "id").truthy = false ∧ oget d.top "dealId" = PyVal.str "")
    ∧ (oget d.top "id" = PyVal.none → oget d.top "dealId" = PyVal.none →
        derivedId d = "None") := by
  constructor
  · rw [derivedId, PyVal.pyOr]
    by_cases h : (oget d.top "id").truthy
    · rw [if_pos h]
      simp only [h, Bool.true_eq_false, false_and, iff_false]
      exact truthy_pyStr_ne_empty _ h
    · rw [if_neg h]
      simp only [Bool.not_eq_true] at h
      simp only [h, true_and]
      cases hb : oget d.top "dealId" with
      | none => simp [PyVal.pyStr]
      | str s => simp [PyVal.pyStr]
      | int n => simp [PyVal.pyStr, intRepr_ne_empty n]
  · intro h1 h2
    rw [derivedId, h1, h2]
    rfl

/-- Witness for `derived_id_nonempty_amended` at a concrete input: a deal
with neither an `id` nor a `dealId` field derives the identifier
`"None"`. -/
theorem derived_id_nonempty_amended_witness :
    derivedId ⟨[], []⟩ = "None" :=
  (derived_id_nonempty_amended ⟨[], []⟩).2 rfl rfl

/-- One response of the paginated `hubspot_deals_search` action as
consumed by `fetch_recent_deals` (lines 132–150): either a falsy result
or non-dict data (which terminates pagination early), or a well-formed
page carrying the optional `results` and `deals` arrays and the optional
`paging.next.after` cursor. -/
inductive FetchResponse where
  | malformed
  | page (results : Option (List Deal)) (deals : Option (List Deal))
      (after : Option String)
deriving DecidableEq

/-- The page-result extraction of `fetch_recent_deals` (line 144):
`data.get("results") or data.get("deals") or []` with Python truthiness
(an absent key and an empty array are both falsy). -/
def pageResultsOf (results deals : Option (List Deal)) : List Deal :=
  if results.getD [] ≠ [] then results.getD []
  else if deals.getD [] ≠ [] then deals.getD []
  else []

/-- The pagination loop of `fetch_recent_deals` (lines 111–152), applied
to the successive responses the connector yields: each iteration extends
the accumulated results with the page's results; the loop stops when the
connector yields nothing or a malformed response (keeping the partial
results) or when the page carries no truthy `after` cursor. -/
def fetch_recent_deals : List FetchResponse → List Deal
  | [] => []
  | .malformed :: _ => []
  | .page results deals after :: rest =>
      pageResultsOf results deals ++
        (match after with
          | some a => if a = "" then [] else fetch_recent_deals rest
          | Option.none => [])

/-- A response sequence in which the deal `cexDealA` appears on two
successive pages. -/
def dupResponses : List FetchResponse :=
  [FetchResponse.page (some [cexDealA]) Option.none (some "cursor1"),
   FetchResponse.page (some [cexDealA]) Option.none Option.none]

/-- Claim C7 counterexample: `fetch_recent_deals` performs no
deduplication — when the source returns the same record on two pages
(here `cexDealA`, derived identifier `"1"`), its identifier occurs twice
in the returned collection. -/
theorem fetch_not_deduplicated_cex :
    ¬ ((fetch_recent_deals dupResponses).map derivedId).Nodup := by decide

/-- Claim C7 amended: `fetch_recent_deals` concatenates the consumed
pages' results without deduplication — the multiplicity of a record
after consuming a page is its multiplicity on that page plus (when the
page carries a truthy `after` cursor) its multiplicity in the remainder
of the pagination; identifiers occurring on several pages therefore
occur several times. -/
theorem fetch_concatenates_pages (results deals : Option (List Deal))
    (after : Option String) (rest : List FetchResponse) (x : Deal) :
    (fetch_recent_deals (FetchResponse.page results deals after :: rest)).count x
      = (pageResultsOf results deals).count x
        + (match after with
            | some a => if a = "" then 0 else (fetch_recent_deals rest).count x
            | Option.none => 0) := by
  show (pageResultsOf results deals ++ _).count x = _
  rw [List.count_append]
  cases after with
  | none => rfl
  | some a =>
    by_cases h : a = "" <;> simp [h]

/-- Lookup in the owner → Slack-user mapping (a `Dict[str, str]`),
modelling `owner_to_slack.get(owner_id)`. -/
def sget (m : List (String × String)) (k : String) : Option String :=
  match m.find? (fun p => p.1 == k) with
  | some p => some p.2
  | Option.none => Option.none

/-- The owner label of `build_channel_summary` (lines 228–230): when a
truthy Slack user id is mapped, attempt a display-name lookup (the
external `get_slack_display_name` call is the `displayName` parameter);
`owner_label = owner_name or owner_id` falls back to the raw owner id on
a missing or falsy name. -/
def ownerLabel (ownerToSlack : List (String × String))
    (displayName : String → Option String) (ownerId : String) : String :=
  let slackUserId := sget ownerToSlack ownerId
  let ownerName : Option String :=
    match slackUserId with
    | some uid => if uid = "" then Option.none else displayName uid
    | Option.none => Option.none
  match ownerName with
  | some nm => if nm = "" then ownerId else nm
  | Option.none => ownerId

/-- The per-owner heading line of `build_channel_summary` (line 231). -/
def ownerHeaderLine (ownerToSlack : List (String × String))
    (displayName : String → Option String) (ownerId : String)
    (deals : List Deal) : String :=
  "*" ++ ownerLabel ownerToSlack displayName ownerId ++ "* – "
    ++ Nat.repr deals.length ++ " deal(s)"

/-- The inline example-deal line of `build_channel_summary`
(lines 232–238). -/
def summaryDealLine (d : Deal) : String :=
  let name := ogetD d.props "dealname" (ogetD d.top "dealname" (PyVal.str "Unnamed Deal"))
  let stage := ogetD d.props "dealstage" (ogetD d.top "dealstage" (PyVal.str ""))
  let pipeline := ogetD d.props "pipeline" (ogetD d.top "pipeline" (PyVal.str ""))
  let amount := ogetD d.props "amount" (ogetD d.top "amount" (PyVal.str ""))
  "   • *" ++ name.pyStr ++ "* — Stage: `" ++ stage.pyStr ++ "`, Pipeline: `"
    ++ pipeline.pyStr ++ "`, Amount: `" ++ amount.pyStr ++ "`"

/-- The body of the per-owner loop of `build_channel_summary`
(lines 227–241): append the owner heading, then one line per deal among
the first three (`deals[:3]`), then — when the owner has more than three
deals — the `…and N more` line, then a blank separator line. -/
def appendOwnerBlock (ownerToSlack : List (String × String))
    (displayName : String → Option String) (lines : List String)
    (entry : String × List Deal) : List String :=
  let lines := lines ++ [ownerHeaderLine ownerToSlack displayName entry.1 entry.2]
  let lines := (entry.2.take 3).foldl (fun ls d => ls ++ [summaryDealLine d]) lines
  let lines :=
    if 3 < entry.2.length then
      lines ++ ["   • …and " ++ Nat.repr (entry.2.length - 3) ++ " more"]
    else lines
  lines ++ [""]

/-- The owner ordering of `build_channel_summary` (line 227):
`sorted(grouped_deals.items(), key=lambda x: len(x[1]), reverse=True)`.
Python's `sorted` is stable, and `reverse=True` orders by non-increasing
key while keeping ties in input order; this is a stable merge sort under
the comparison `len(b) ≤ len(a)`. -/
def sortOwnersDesc (g : List (String × List Deal)) : List (String × List Deal) :=
  g.mergeSort (fun a b => decide (b.2.length ≤ a.2.length))

/-- `build_channel_summary` (lines 217–242): header lines, then one block
per owner in sorted order, joined with newlines and stripped (Python's
`str.strip` is modelled by `String.trim`). -/
def build_channel_summary (grouped : List (String × List Deal))
    (ownerToSlack : List (String × String))
    (displayName : String → Option String) (lookbackHours : Nat) : String :=
  let totalDeals := (grouped.map (fun p => p.2.length)).sum
  let headerLines :=
    ["📣 *Daily CRM Digest – Pipeline Updates (" ++ Nat.repr lookbackHours ++ "h)*",
     "Total deals updated: " ++ Nat.repr totalDeals,
     ""]
  let lines := (sortOwnersDesc grouped).foldl
    (appendOwnerBlock ownerToSlack displayName) headerLines
  (String.intercalate "\n" lines).trim

/-- One numbered entry of `build_dm_message` (lines 197–213).  The
standard-library datetime parse/format of the pretty date is the
`prettyFmt` parameter: `some` is the reformatted date on a successful
ISO-8601 parse, `Option.none` makes the raw marker shown unchanged (the
`except` branch); a non-string truthy marker also falls back to its raw
rendering. -/
def dmDealLine (prettyFmt : String → Option String) (i : Nat) (d : Deal) : String :=
  let name := ogetD d.props "dealname" (ogetD d.top "dealname" (PyVal.str "Unnamed Deal"))
  let stage := ogetD d.props "dealstage" (ogetD d.top "dealstage" (PyVal.str ""))
  let pipeline := ogetD d.props "pipeline" (ogetD d.top "pipeline" (PyVal.str ""))
  let amount := ogetD d.props "amount" (ogetD d.top "amount" (PyVal.str ""))
  let lastModified := ogetD d.props "hs_lastmodifieddate"
    (ogetD d.top "hs_lastmodifieddate" (PyVal.str ""))
  let prettyDate :=
    if lastModified.truthy then
      match lastModified with
      | PyVal.str s => (prettyFmt s).getD s
      | v => v.pyStr
    else ""
  Nat.repr i ++ ". *" ++ name.pyStr ++ "*\n   • Stage: `" ++ stage.pyStr
    ++ "`\n   • Pipeline: `" ++ pipeline.pyStr ++ "`\n   • Amount: `"
    ++ amount.pyStr ++ "`\n   • Modified: " ++ prettyDate

/-- `build_dm_message` (lines 194–214). -/
def build_dm_message (prettyFmt : String → Option String) (lookbackHours : Nat)
    (deals : List Deal) : String :=
  String.intercalate "\n"
    (("📊 *Your pipeline updates for the last " ++ Nat.repr lookbackHours ++ "h*")
      :: ""
      :: (deals.enumFrom 1).map (fun p => dmDealLine prettyFmt p.1 p.2))

/-- The "no changes" aggregate notice of `run_digest` (lines 327–330). -/
def noChangesText (lookbackHours : Nat) : String :=
  "📣 *Daily CRM Digest – Pipeline Updates (" ++ Nat.repr lookbackHours ++ "h)*\n"
    ++ "No new or updated pipeline changes in the last "
    ++ Nat.repr lookbackHours ++ "h."

/-- A Slack message as handed to `send_slack_message`: destination
channel (a channel id or a user id for a DM) and text body. -/
structure SendMsg where
  channel : String
  text : String
deriving DecidableEq

/-- The messages `run_digest` sends after the fetch (lines 308–357), in
order: run the change detection; with no changed deals, send only the
"no changes" notice and only when a digest channel is configured
(`Settings.DIGEST_CHANNEL_ID` is a plain string, empty when unset);
otherwise group the changed deals, DM each owner with a truthy Slack
mapping, and finally send the channel summary when configured. -/
def runDigestSends (deals : List Deal) (previousSnapshot : List (String × PyVal))
    (ownerToSlack : List (String × String)) (digestChannelId : String)
    (displayName : String → Option String) (prettyFmt : String → Option String)
    (lookbackHours : Nat) : List SendMsg :=
  let changedDeals := (detect deals previousSnapshot).1
  if changedDeals = [] then
    if digestChannelId ≠ "" then
      [⟨digestChannelId, noChangesText lookbackHours⟩]
    else []
  else
    let grouped := group_deals_by_owner changedDeals
    let dms := grouped.foldl (fun acc p =>
      match sget ownerToSlack p.1 with
      | some uid =>
          if uid = "" then acc
          else acc ++ [⟨uid, build_dm_message prettyFmt lookbackHours p.2⟩]
      | Option.none => acc) []
    dms ++
      (if digestChannelId ≠ "" then
        [⟨digestChannelId,
          build_channel_summary grouped ownerToSlack displayName lookbackHours⟩]
      else [])

/-- Claim C5: the owner ordering used by the aggregate channel summary
lists owners in non-increasing order of changed-deal count, is a
permutation of the grouping, and is stable — for every count value, the
subsequence of owners having exactly that count equals the corresponding
subsequence of the grouping in its insertion order. -/
theorem summary_owner_ordering (g : List (String × List Deal)) :
    (sortOwnersDesc g).Pairwise (fun a b => b.2.length ≤ a.2.length)
    ∧ (sortOwnersDesc g).Perm g
    ∧ ∀ c, (sortOwnersDesc g).filter (fun p => p.2.length == c)
        = g.filter (fun p => p.2.length == c) := by
  have htrans : ∀ (a b c : String × List Deal),
      decide (b.2.length ≤ a.2.length) → decide (c.2.length ≤ b.2.length) →
      decide (c.2.length ≤ a.2.length) := by
    intro a b c hab hbc
    simp only [decide_eq_true_eq] at *
    omega
  have htotal : ∀ (a b : String × List Deal),
      decide (b.2.length ≤ a.2.length) || decide (a.2.length ≤ b.2.length) := by
    intro a b
    simp only [Bool.or_eq_true, decide_eq_true_eq]
    omega
  refine ⟨?_, List.mergeSort_perm g _, ?_⟩
  · have := List.sorted_mergeSort htrans htotal g
    exact this.imp (by simp)
  · intro c
    have hall : ∀ p ∈ g.filter (fun p => p.2.length == c), p.2.length == c :=
      fun p hp => (List.mem_filter.mp hp).2
    have hfpair : (g.filter (fun p => p.2.length == c)).Pairwise
        (fun a b => decide (b.2.length ≤ a.2.length) = true) := by
      refine List.pairwise_of_forall_mem_list ?_
      intro a ha b hb
      have ha' : a.2.length = c := by simpa using hall a ha
      have hb' : b.2.length = c := by simpa using hall b hb
      simp [ha', hb']
    have hsub : List.Sublist (g.filter (fun p => p.2.length == c))
        (sortOwnersDesc g) :=
      List.sublist_mergeSort htrans htotal hfpair (List.filter_sublist g)
    have hsub2 : List.Sublist (g.filter (fun p => p.2.length == c))
        ((sortOwnersDesc g).filter (fun p => p.2.length == c)) := by
      have h2 := hsub.filter (fun p => p.2.length == c)
      rwa [List.filter_eq_self.mpr hall] at h2
    have hlen : (g.filter (fun p => p.2.length == c)).length
        = ((sortOwnersDesc g).filter (fun p => p.2.length == c)).length :=
      ((List.mergeSort_perm g _).filter _).length_eq.symm
    exact (hsub2.eq_of_length hlen).symm

theorem foldl_append_map {α β : Type} (f : α → β) :
    ∀ (l : List α) (init : List β),
      l.foldl (fun acc x => acc ++ [f x]) init = init ++ l.map f := by
  intro l
  induction l with
  | nil => intro init; simp
  | cons x rest ih =>
    intro init
    rw [List.foldl_cons, ih, List.map_cons, List.append_assoc]
    rfl

/-- Claim C6: a per-owner block of the aggregate channel summary consists
of the owner heading, one inline line per deal among the first three
only, the `…and N more` line exactly when the owner has more than three
deals (with `N` the count minus three), and a blank separator; in
particular an owner with exactly four deals shows three inline lines
plus `…and 1 more`, and an owner with exactly three shows all three with
no `more` line. -/
theorem summary_truncation (ownerToSlack : List (String × String))
    (displayName : String → Option String) (lines : List String)
    (entry : String × List Deal) :
    (appendOwnerBlock ownerToSlack displayName lines entry
      = lines ++ [ownerHeaderLine ownerToSlack displayName entry.1 entry.2]
        ++ (entry.2.take 3).map summaryDealLine
        ++ (if 3 < entry.2.length
            then ["   • …and " ++ Nat.repr (entry.2.length - 3) ++ " more"]
            else [])
        ++ [""])
    ∧ (entry.2.length = 4 →
        appendOwnerBlock ownerToSlack displayName lines entry
          = lines ++ [ownerHeaderLine ownerToSlack displayName entry.1 entry.2]
            ++ (entry.2.take 3).map summaryDealLine ++ ["   • …and 1 more", ""])
    ∧ (entry.2.length = 3 →
        appendOwnerBlock ownerToSlack displayName lines entry
          = lines ++ [ownerHeaderLine ownerToSlack displayName entry.1 entry.2]
            ++ entry.2.map summaryDealLine ++ [""]) := by
  have hmain : appendOwnerBlock ownerToSlack displayName lines entry
      = lines ++ [ownerHeaderLine ownerToSlack displayName entry.1 entry.2]
        ++ (entry.2.take 3).map summaryDealLine
        ++ (if 3 < entry.2.length
            then ["   • …and " ++ Nat.repr (entry.2.length - 3) ++ " more"]
            else [])
        ++ [""] := by
    rw [appendOwnerBlock, foldl_append_map]
    by_cases h : 3 < entry.2.length <;> simp [h, List.append_assoc]
  refine ⟨hmain, ?_, ?_⟩
  · intro h4
    rw [hmain, h4]
    rw [show (if 3 < 4 then ["   • …and " ++ Nat.repr (4 - 3) ++ " more"]
        else ([] : List String)) = ["   • …and 1 more"] from rfl]
    simp [List.append_assoc]
  · intro h3
    rw [hmain, List.take_of_length_le (le_of_eq h3)]
    simp [h3, List.append_assoc]

/-- Witness for `summary_truncation` at a concrete input: an owner with
exactly four deals renders three inline lines and an `…and 1 more`
line. -/
theorem summary_truncation_witness :
    appendOwnerBlock [] (fun _ => Option.none) []
        ("42", [cexDealA, cexDealA, cexDealA, cexDealA])
      = [] ++ [ownerHeaderLine [] (fun _ => Option.none) "42"
            [cexDealA, cexDealA, cexDealA, cexDealA]]
        ++ ([cexDealA, cexDealA, cexDealA, cexDealA].take 3).map summaryDealLine
        ++ ["   • …and 1 more", ""] :=
  (summary_truncation [] (fun _ => Option.none) []
    ("42", [cexDealA, cexDealA, cexDealA, cexDealA])).2.1 rfl

/-- Claim C8: when the change detector reports no changed deals,
`run_digest` attempts no per-owner direct message — it sends exactly one
"no changes" aggregate notice when a digest channel is configured, and
sends nothing at all when it is not. -/
theorem no_changes_single_notice (deals : List Deal)
    (previousSnapshot : List (String × PyVal))
    (ownerToSlack : List (String × String)) (digestChannelId : String)
    (displayName : String → Option String) (prettyFmt : String → Option String)
    (lookbackHours : Nat)
    (hchanged : (detect deals previousSnapshot).1 = []) :
    (digestChannelId ≠ "" →
      runDigestSends deals previousSnapshot ownerToSlack digestChannelId
          displayName prettyFmt lookbackHours
        = [⟨digestChannelId, noChangesText lookbackHours⟩])
    ∧ (digestChannelId = "" →
      runDigestSends deals previousSnapshot ownerToSlack digestChannelId
          displayName prettyFmt lookbackHours
        = []) := by
  constructor <;> intro h <;> simp [runDigestSends, hchanged, h]

/-- Witness for `no_changes_single_notice` at a concrete input: an empty
fetch with a configured digest channel produces exactly the "no changes"
notice. -/
theorem no_changes_single_notice_witness :
    runDigestSends [] [] [] "C123" (fun _ => Option.none) (fun _ => Option.none) 24
      = [⟨"C123", noChangesText 24⟩] :=
  (no_changes_single_notice [] [] [] "C123" (fun _ => Option.none)
    (fun _ => Option.none) 24 rfl).1 (by decide)

end HubspotDigest
